import Mathlib

/-!
# vuex-workshop: the render-and-cache request path and the client route hooks

A shallow embedding of `server/index.js` (transport guard, static mounts,
micro-cached `render`) and of `src/entry/client.js` (the `beforeRouteUpdate`
mixin and the `beforeResolve` hook), followed by theorems about them.

Effects are made explicit: a handler returns the response it built, the cache it
left behind, the list of effects it performed and whether it threw.  Time is a
natural number of milliseconds (`Date.now()`).
-/

namespace VuexWorkshop

/-! ## JavaScript values -/

/-- Truthiness of a JavaScript value of type `string | undefined`:
`undefined` and the empty string are falsy. -/
def truthy : Option String → Bool
  | none => false
  | some s => s != ""

/-! ## Process environment -/

/-- The environment variables the server reads (`none` = unset), together with
the `Server` header string computed from the installed package versions. -/
structure Env where
  NODE_ENV : Option String
  MICRO_CACHE : Option String
  PORT_HTTPS : Option String
  serverInfo : String
deriving DecidableEq, Repr

/-- The constant `isProd = process.env.NODE_ENV === 'production'`. -/
def isProd (env : Env) : Bool :=
  env.NODE_ENV == some "production"

/-- The constant `useMicroCache = process.env.MICRO_CACHE !== 'false'`. -/
def useMicroCache (env : Env) : Bool :=
  env.MICRO_CACHE != some "false"

/-- The expression `process.env.PORT_HTTPS || 3443`, as it is spliced into a
template string. -/
def httpsPort (env : Env) : String :=
  if truthy env.PORT_HTTPS then env.PORT_HTTPS.getD "" else "3443"

/-! ## Requests and responses -/

/-- The fields of an Express request that the server reads. -/
structure Request where
  secure : Bool
  hostname : String
  url : String
deriving DecidableEq, Repr

/-- An HTTP response under construction.  A fresh response has status 200. -/
structure Response where
  headers : List (String × String)
  statusCode : Option Nat
  body : Option String
  finished : Bool
deriving DecidableEq, Repr

/-- The response object handed to a handler: no headers, status 200, not sent. -/
def Response.fresh : Response :=
  ⟨[], some 200, none, false⟩

/-- The call `res.setHeader(name, value)`. -/
def Response.setHeader (res : Response) (name value : String) : Response :=
  { res with headers := res.headers ++ [(name, value)] }

/-- The call `res.status(code)`; the argument may be `undefined`. -/
def Response.status (res : Response) (code : Option Nat) : Response :=
  { res with statusCode := code }

/-- The check Node's `writeHead` makes on the status code when the head of the
response is sent: `statusCode |= 0`, then a `RangeError` unless the code lies in
100..999.  `undefined` becomes 0 and is refused. -/
def validStatusCode : Option Nat → Bool
  | none => false
  | some n => 100 ≤ n && n ≤ 999

/-- The call `res.end(body)`; the argument may be `undefined`.  The head is sent
first, with the status code `res.status` left: `none` when that code is refused
and `end` throws, nothing being sent. -/
def Response.end_ (res : Response) (body : Option String) : Option Response :=
  if validStatusCode res.statusCode then some { res with body := body, finished := true }
  else none

/-! ## Transport guard -/

/-- What the `app.all('*', ...)` guard does with a request. -/
inductive Guard where
  | next
  | redirect (location : String)
deriving DecidableEq, Repr

/-- The guard of `app.all('*', ...)`:
`if (req.secure) return next()`, otherwise `res.redirect(...)`. -/
def ensureSecure (env : Env) (req : Request) : Guard :=
  if req.secure then Guard.next
  else Guard.redirect ("https://" ++ req.hostname ++ ":" ++ httpsPort env ++ req.url)

/-! ## Static mounts -/

/-- The `maxAge` option computed by `serve(path, cache)`:
`cache && isProd ? 1000 * 60 * 60 * 24 * 30 : 0`; `cache` is `none` when the
argument is omitted. -/
def serve (env : Env) (cache : Option Bool) : Nat :=
  if cache.getD false && isProd env then 1000 * 60 * 60 * 24 * 30 else 0

/-- The three `app.use(mount, serve(...))` lines: mount point and `maxAge`. -/
def staticMounts (env : Env) : List (String × Nat) :=
  [ ("/assets", serve env (some true)),
    ("/static", serve env (some true)),
    ("/sw.js", serve env none) ]

/-! ## Micro-cache -/

/-- Modelled from the spec: an entry of the `lru-cache` store (a package the
server imports): key, value and absolute expiry timestamp. -/
structure CacheEntry where
  key : String
  value : Option String
  expires : Nat
deriving DecidableEq, Repr

/-- Modelled from the spec: the `lru-cache` store (a package the server imports):
capacity `max`, time to live `maxAge`, entries from most to least recently used. -/
structure LRU where
  max : Nat
  maxAge : Nat
  entries : List CacheEntry
deriving DecidableEq, Repr

/-- Modelled from the spec: `get(key) -> value | absent` of `lru-cache`.  The expiry
timestamp is checked lazily here: an expired entry is dropped and reported absent,
a live one becomes the most recently used. -/
def LRU.get (c : LRU) (key : String) (now : Nat) : Option String × LRU :=
  match c.entries.find? (fun e => e.key == key) with
  | none => (none, c)
  | some e =>
    if e.expires < now then (none, { c with entries := c.entries.erase e })
    else (e.value, { c with entries := e :: c.entries.erase e })

/-- Modelled from the spec: `set(key, value)` of `lru-cache`.  The entry becomes the
most recently used, expires `maxAge` after `now`, and the least recently used
entries beyond the capacity are evicted. -/
def LRU.set (c : LRU) (key : String) (value : Option String) (now : Nat) : LRU :=
  let rest :=
    match c.entries.find? (fun e => e.key == key) with
    | none => c.entries
    | some e => c.entries.erase e
  { c with entries := (⟨key, value, now + c.maxAge⟩ :: rest).take c.max }

/-- The page-level cache `microCache = LRU({ max: 100, maxAge: 1000 })`, empty at
startup. -/
def microCache : LRU :=
  ⟨100, 1000, []⟩

/-- The entries in front of the first entry under the key `u`. -/
def ahead (u : String) (l : List CacheEntry) : List CacheEntry :=
  l.takeWhile (fun e => e.key != u)

/-- The entry `x` is the first entry of the list under its key, and the entries in
front of it have distinct keys, all among `urls`. -/
def heldBehind (x : CacheEntry) (urls : List String) (l : List CacheEntry) : Prop :=
  l.find? (fun e => e.key == x.key) = some x ∧
  ((ahead x.key l).map CacheEntry.key).Nodup ∧
  ∀ e ∈ ahead x.key l, e.key ∈ urls

instance (x : CacheEntry) (urls : List String) (l : List CacheEntry) :
    Decidable (heldBehind x urls l) := by
  unfold heldBehind
  infer_instance

/-! ## Renderer -/

/-- An application error object; `status` may be missing. -/
structure ErrorInfo where
  status : Option Nat
deriving DecidableEq, Repr

/-- The object at `context.state.context`. -/
structure ContextModule where
  error : Option ErrorInfo
deriving DecidableEq, Repr

/-- The object at `context.state`; its `context` property may be missing. -/
structure AppState where
  context : Option ContextModule
deriving DecidableEq, Repr

/-- The render context `{ url: req.url }`; `state` is whatever the renderer
attached, `none` when it attached nothing. -/
structure RenderContext where
  url : String
  state : Option AppState
deriving DecidableEq, Repr

/-- What one call of `renderer.renderToString(context, cb)` reports: the two
callback arguments, the `state` it left on the context, and how long it took. -/
structure Rendered where
  failure : Option String
  html : Option String
  state : Option AppState
  elapsed : Nat
deriving DecidableEq, Repr

/-- The renderer: an external collaborator, here any function of the url. -/
abbrev Renderer := String → Rendered

/-! ## The render handler -/

/-- The observable effects of `render`, in program order. -/
inductive Effect where
  | cacheGet (key : String)
  | cacheSet (key : String) (value : Option String)
  | renderToString (url : String)
  | consoleLog (msg : String)
  | consoleError (msg : String)
  | typeError
  | rangeError
deriving DecidableEq, Repr

/-- Is the effect an invocation of the renderer? -/
def Effect.isRender : Effect → Bool
  | Effect.renderToString _ => true
  | _ => false

/-- Is the effect a read of the micro-cache? -/
def Effect.isCacheGet : Effect → Bool
  | Effect.cacheGet _ => true
  | _ => false

/-- Is the effect a write of the micro-cache? -/
def Effect.isCacheSet : Effect → Bool
  | Effect.cacheSet _ _ => true
  | _ => false

/-- The result of running a handler to completion. -/
structure Served where
  res : Response
  cache : LRU
  effects : List Effect
  threw : Bool
deriving DecidableEq, Repr

/-- The predicate `isCacheable = req => useMicroCache`. -/
def isCacheable (env : Env) (_req : Request) : Bool :=
  useMicroCache env

/-- The status expression of the callback, `error ? error.status : 200`. -/
def callbackStatus (error : Option ErrorInfo) : Option Nat :=
  match error with
  | some e => e.status
  | none => some 200

/-- The completion callback passed to `renderToString`.  `done` is the time at
which it runs.  Reading `context.state.context` throws when `context.state` or
`context.state.context` is missing; `res.status(...).end(html)` throws when the
status is refused, before the log, the cache write and the timing. -/
def renderCallback (env : Env) (cacheable : Bool) (req : Request) (s done : Nat)
    (res : Response) (cache : LRU) (context : RenderContext)
    (failure html : Option String) : Served :=
  match context.state.bind AppState.context with
  | none => ⟨res, cache, [Effect.typeError], true⟩
  | some m =>
    let error := m.error
    let res1 := res.status (callbackStatus error)
    match res1.end_ html with
    | none => ⟨res1, cache, [Effect.rangeError], true⟩
    | some sent =>
      let e1 := match failure with
        | some msg => [Effect.consoleError ("Critical: " ++ msg)]
        | none => []
      let cache2 := if cacheable then cache.set req.url html done else cache
      let e2 := if cacheable then [Effect.cacheSet req.url html] else []
      let e3 := if !isProd env then
          [Effect.consoleLog ("whole request: " ++ toString (done - s) ++ "ms")]
        else []
      ⟨sent, cache2, e1 ++ e2 ++ e3, false⟩

/-- The part of `render` after the cache lookup: build the context, invoke the
renderer, run the callback when it completes. -/
def renderMiss (env : Env) (cacheable : Bool) (renderer : Renderer) (req : Request)
    (s : Nat) (res : Response) (cache : LRU) (pre : List Effect) : Served :=
  let r := renderer req.url
  let context : RenderContext := ⟨req.url, r.state⟩
  let out := renderCallback env cacheable req s (s + r.elapsed) res cache context
    r.failure r.html
  { out with effects := pre ++ [Effect.renderToString req.url] ++ out.effects }

/-- The handler `function render(req, res)`, run at time `now` against the cache
`cache`. -/
def render (env : Env) (cache : LRU) (renderer : Renderer) (req : Request)
    (now : Nat) : Served :=
  let s := now
  let res := (Response.fresh.setHeader "Content-Type" "text/html").setHeader
    "Server" env.serverInfo
  let cacheable := isCacheable env req
  if cacheable then
    let hit := (cache.get req.url now).1
    let cache1 := (cache.get req.url now).2
    if truthy hit then
      let e1 := [Effect.cacheGet req.url] ++
        (if !isProd env then [Effect.consoleLog "cache hit!"] else [])
      match res.end_ hit with
      | none => ⟨res, cache1, e1 ++ [Effect.rangeError], true⟩
      | some sent => ⟨sent, cache1, e1, false⟩
    else renderMiss env cacheable renderer req s res cache1 [Effect.cacheGet req.url]
  else renderMiss env cacheable renderer req s res cache []

/-- The status the specification states for a completed render, written from its
words `error?.status ?? 200`: the status of the error when there is an error and it
has one, 200 otherwise. -/
def statedStatus (error : Option ErrorInfo) : Option Nat :=
  some ((error.bind ErrorInfo.status).getD 200)

/-- One request of a run: the request, its arrival time and the renderer handle
in place when it arrives. -/
structure Job where
  req : Request
  now : Nat
  renderer : Renderer

/-- Serve the jobs one after the other, each to completion.  An exception thrown
by a completion callback is uncaught and ends the process: `none`. -/
def serveAll (env : Env) : LRU → List Job → Option LRU
  | c, [] => some c
  | c, j :: js =>
    let r := render env c j.renderer j.req j.now
    if r.threw then none else serveAll env r.cache js

/-- The micro-cache after the jobs have been handled one after the other, each to
completion.  A callback that threw leaves the cache as the lookup left it. -/
def cacheAfter (env : Env) : LRU → List Job → LRU
  | c, [] => c
  | c, j :: js => cacheAfter env (render env c j.renderer j.req j.now).cache js

/-! ## Client route hooks -/

/-- A route component's options: its identity as an object, the identity of its
`fetch` function when it defines one, and the truthiness of `refetch`. -/
structure Component where
  ref : Nat
  fetch : Option Nat
  refetch : Bool
deriving DecidableEq, Repr

/-- How the promise returned by a `fetch` function settles. -/
inductive Settled where
  | resolved
  | rejected (error : String)
  | pending
deriving DecidableEq, Repr

/-- A call of the navigation callback: `next()` or `next(error)`. -/
inductive NextCall where
  | plain
  | withError (error : String)
deriving DecidableEq, Repr

/-- A call `fetch(store, to, from)`. -/
structure FetchCall where
  hook : Nat
  store : Nat
  to_ : String
  from_ : String
deriving DecidableEq, Repr

/-- What a navigation hook did: the `fetch` calls and the `next` calls, in order. -/
structure HookRun where
  fetchCalls : List FetchCall
  nextCalls : List NextCall
deriving DecidableEq, Repr

/-- The behaviour of the `fetch` functions: how each call settles. -/
abbrev Fetcher := FetchCall → Settled

/-- The `beforeRouteUpdate` of the global mixin. -/
def beforeRouteUpdate (options : Component) (run : Fetcher) (store : Nat)
    (to_ from_ : String) : HookRun :=
  match options.fetch with
  | none => ⟨[], []⟩
  | some fetch =>
    if !options.refetch then ⟨[], []⟩
    else
      let call : FetchCall := ⟨fetch, store, to_, from_⟩
      match run call with
      | Settled.resolved => ⟨[call], [NextCall.plain]⟩
      | Settled.rejected error => ⟨[call], [NextCall.withError error]⟩
      | Settled.pending => ⟨[call], []⟩

/-- The test `prevMatched[i] !== c || !!c.refetch`; `!==` compares object
identity, and `prevMatched[i]` is `undefined` past the end of the list. -/
def differs (prevMatched : List Component) (i : Nat) (c : Component) : Bool :=
  (prevMatched.get? i).map Component.ref != some c.ref || c.refetch

/-- The filter callback of `beforeResolve`, threaded through the list:
`(c, i) => diffed || (diffed = prevMatched[i] !== c || !!c.refetch)`. -/
def activatedFrom (prevMatched : List Component) :
    Nat → Bool → List Component → List Component
  | _, _, [] => []
  | i, diffed, c :: cs =>
    let diffed1 := diffed || differs prevMatched i c
    if diffed1 then c :: activatedFrom prevMatched (i + 1) diffed1 cs
    else activatedFrom prevMatched (i + 1) diffed1 cs

/-- The `beforeResolve` hook registered in `router.onReady`. -/
def beforeResolve (getMatchedComponents : String → List Component) (run : Fetcher)
    (store : Nat) (to_ from_ : String) : HookRun :=
  let matched := getMatchedComponents to_
  let prevMatched := getMatchedComponents from_
  let activated := activatedFrom prevMatched 0 false matched
  let hooks := (activated.map Component.fetch).filter Option.isSome
  let calls := hooks.filterMap (fun hook => hook.map (fun f => ⟨f, store, to_, from_⟩))
  if hooks.length != 0 then
    if calls.all (fun c => run c == Settled.resolved) then ⟨calls, [NextCall.plain]⟩
    else ⟨calls, []⟩
  else ⟨[], [NextCall.plain]⟩

/-! ## Theorems: the three ways a render ends -/

/-- The renderer left no `state.context`: the callback throws at its first
statement. -/
theorem renderMiss_typeError (env : Env) (cacheable : Bool) (renderer : Renderer)
    (req : Request) (s : Nat) (res : Response) (cache : LRU) (pre : List Effect)
    (hstate : (renderer req.url).state.bind AppState.context = none) :
    renderMiss env cacheable renderer req s res cache pre
      = ⟨res, cache, pre ++ [Effect.renderToString req.url] ++ [Effect.typeError],
          true⟩ := by
  simp [renderMiss, renderCallback, hstate]

/-- The status expression gives a code that is refused: the callback throws in
`res.end`, before any log or cache write. -/
theorem renderMiss_rangeError (env : Env) (cacheable : Bool) (renderer : Renderer)
    (req : Request) (s : Nat) (res : Response) (cache : LRU) (pre : List Effect)
    (m : ContextModule)
    (hstate : (renderer req.url).state.bind AppState.context = some m)
    (hbad : validStatusCode (callbackStatus m.error) = false) :
    renderMiss env cacheable renderer req s res cache pre
      = ⟨res.status (callbackStatus m.error), cache,
          pre ++ [Effect.renderToString req.url] ++ [Effect.rangeError], true⟩ := by
  simp [renderMiss, renderCallback, hstate, Response.end_, Response.status, hbad]

/-- The status expression gives a code in 100..999: the callback runs to its
end. -/
theorem renderMiss_sent (env : Env) (cacheable : Bool) (renderer : Renderer)
    (req : Request) (s : Nat) (res : Response) (cache : LRU) (pre : List Effect)
    (m : ContextModule)
    (hstate : (renderer req.url).state.bind AppState.context = some m)
    (hvalid : validStatusCode (callbackStatus m.error) = true) :
    renderMiss env cacheable renderer req s res cache pre
      = ⟨{ res with statusCode := callbackStatus m.error,
                    body := (renderer req.url).html, finished := true },
          if cacheable then
            cache.set req.url (renderer req.url).html (s + (renderer req.url).elapsed)
          else cache,
          pre ++ [Effect.renderToString req.url] ++
            ((match (renderer req.url).failure with
              | some msg => [Effect.consoleError ("Critical: " ++ msg)]
              | none => []) ++
              (if cacheable then [Effect.cacheSet req.url (renderer req.url).html]
                else []) ++
              (if !isProd env then
                [Effect.consoleLog ("whole request: " ++
                  toString (s + (renderer req.url).elapsed - s) ++ "ms")]
                else [])),
          false⟩ := by
  simp [renderMiss, renderCallback, hstate, Response.end_, Response.status, hvalid]

/-! ## Theorems: configuration -/

/-- C6: when `MICRO_CACHE` is the string "false", `isCacheable` is false for every
request and `render` invokes the renderer exactly once, performs no cache read and
no cache write and leaves the cache as it was, whatever the cache holds; for every
other value of `MICRO_CACHE`, unset included, `isCacheable` is true. -/
theorem microCache_flag (env : Env) :
    (env.MICRO_CACHE = some "false" →
      (∀ req, isCacheable env req = false) ∧
      ∀ (cache : LRU) (renderer : Renderer) (req : Request) (now : Nat),
        (render env cache renderer req now).effects.filter Effect.isRender
            = [Effect.renderToString req.url] ∧
        (render env cache renderer req now).effects.filter Effect.isCacheGet = [] ∧
        (render env cache renderer req now).effects.filter Effect.isCacheSet = [] ∧
        (render env cache renderer req now).cache = cache) ∧
    (env.MICRO_CACHE ≠ some "false" → ∀ req, isCacheable env req = true) := by
  refine ⟨fun h => ⟨fun req => by simp [isCacheable, useMicroCache, h], ?_⟩,
    fun h req => by simpa [isCacheable, useMicroCache] using h⟩
  intro cache renderer req now
  have hc : isCacheable env req = false := by simp [isCacheable, useMicroCache, h]
  have hr : render env cache renderer req now
      = renderMiss env false renderer req now
          ((Response.fresh.setHeader "Content-Type" "text/html").setHeader
            "Server" env.serverInfo) cache [] := by
    simp [render, hc]
  rw [hr]
  cases hstate : (renderer req.url).state.bind AppState.context with
  | none =>
    rw [renderMiss_typeError _ _ _ _ _ _ _ _ hstate]
    simp [Effect.isRender, Effect.isCacheGet, Effect.isCacheSet]
  | some m =>
    cases hv : validStatusCode (callbackStatus m.error) with
    | false =>
      rw [renderMiss_rangeError _ _ _ _ _ _ _ _ m hstate hv]
      simp [Effect.isRender, Effect.isCacheGet, Effect.isCacheSet]
    | true =>
      rw [renderMiss_sent _ _ _ _ _ _ _ _ m hstate hv]
      cases (renderer req.url).failure <;> cases isProd env <;>
        simp [Effect.isRender, Effect.isCacheGet, Effect.isCacheSet]

/-- The flag theorem at a concrete environment with `MICRO_CACHE=false`. -/
theorem microCache_flag_witness :
    (∀ req, isCacheable ⟨none, some "false", none, "express"⟩ req = false) ∧
    (isCacheable ⟨none, none, none, "express"⟩ ⟨true, "h", "/"⟩ = true) :=
  ⟨((microCache_flag ⟨none, some "false", none, "express"⟩).1 rfl).1,
    (microCache_flag ⟨none, none, none, "express"⟩).2 (by decide) ⟨true, "h", "/"⟩⟩

/-- C7: for a request that is not secure the guard does not call `next` and
redirects to `https://<hostname>:<port><url>` with the host name and url of the
request unchanged, where the port is `PORT_HTTPS` when it is set to a non-empty
string and 3443 when it is unset or empty; a secure request is passed on without a
redirect. -/
theorem ensureSecure_spec (env : Env) (req : Request) :
    (req.secure = false →
      ensureSecure env req ≠ Guard.next ∧
      (∀ p, env.PORT_HTTPS = some p → p ≠ "" →
        ensureSecure env req
          = Guard.redirect ("https://" ++ req.hostname ++ ":" ++ p ++ req.url)) ∧
      (env.PORT_HTTPS = none ∨ env.PORT_HTTPS = some "" →
        ensureSecure env req
          = Guard.redirect ("https://" ++ req.hostname ++ ":" ++ "3443" ++ req.url))) ∧
    (req.secure = true → ensureSecure env req = Guard.next) := by
  refine ⟨fun h => ⟨by simp [ensureSecure, h], ?_, ?_⟩, fun h => by simp [ensureSecure, h]⟩
  · intro p hp hne
    simp [ensureSecure, h, httpsPort, hp, truthy, hne]
  · rintro (hp | hp) <;> simp [ensureSecure, h, httpsPort, hp, truthy]

/-- The guard theorem at a plaintext request for `/a?b=1` with `PORT_HTTPS=8443`. -/
theorem ensureSecure_spec_witness :
    ensureSecure ⟨none, none, some "8443", "express"⟩ ⟨false, "example.org", "/a?b=1"⟩
      = Guard.redirect ("https://" ++ "example.org" ++ ":" ++ "8443" ++ "/a?b=1") :=
  ((ensureSecure_spec ⟨none, none, some "8443", "express"⟩
    ⟨false, "example.org", "/a?b=1"⟩).1 rfl).2.1 "8443" rfl (by decide)

/-- C8 as stated fails: in the production configuration the `/sw.js` mount is
configured with max-age 0, not 30 days. -/
theorem serve_sw_not_cached_in_production :
    isProd ⟨some "production", none, none, "express"⟩ = true ∧
    ("/sw.js", 0) ∈ staticMounts ⟨some "production", none, none, "express"⟩ ∧
    ¬ (∀ m ∈ staticMounts ⟨some "production", none, none, "express"⟩,
        m.2 = 2592000000) := by
  decide

/-- C8, amended: the mounts are exactly `/assets`, `/static` and `/sw.js`; the
max-age of `/assets` and of `/static` is 30 days (2,592,000,000 ms) in the
production configuration and 0 in every other one; the max-age of `/sw.js` is 0
in every configuration. -/
theorem serve_maxAge (env : Env) :
    staticMounts env
      = [ ("/assets", if env.NODE_ENV = some "production" then 2592000000 else 0),
          ("/static", if env.NODE_ENV = some "production" then 2592000000 else 0),
          ("/sw.js", 0) ] := by
  by_cases h : env.NODE_ENV = some "production" <;> simp [staticMounts, serve, isProd, h]

/-! ## Theorems: client route hooks -/

/-- C9, the code at the failing inputs: for a component without `fetch`, and for
one with `fetch` but a falsy `refetch`, `beforeRouteUpdate` calls neither `fetch`
nor `next` (it returns the function `next` instead of calling it); with both
defined it calls `fetch(store, to, from)` once and then `next()` when the promise
resolves, `next(error)` when it rejects. -/
theorem beforeRouteUpdate_next_calls (ref fetch store : Nat) (to_ from_ : String)
    (run : Fetcher) :
    beforeRouteUpdate ⟨ref, none, true⟩ run store to_ from_ = ⟨[], []⟩ ∧
    beforeRouteUpdate ⟨ref, some fetch, false⟩ run store to_ from_ = ⟨[], []⟩ ∧
    (beforeRouteUpdate ⟨ref, some fetch, true⟩ run store to_ from_).fetchCalls
      = [⟨fetch, store, to_, from_⟩] ∧
    (beforeRouteUpdate ⟨ref, some fetch, true⟩ run store to_ from_).nextCalls
      = (match run ⟨fetch, store, to_, from_⟩ with
        | Settled.resolved => [NextCall.plain]
        | Settled.rejected error => [NextCall.withError error]
        | Settled.pending => []) := by
  refine ⟨rfl, rfl, ?_, ?_⟩ <;>
    simp only [beforeRouteUpdate] <;>
    cases run ⟨fetch, store, to_, from_⟩ <;> rfl

/-- Once the flag is set the filter of `beforeResolve` keeps every component. -/
theorem activatedFrom_true (prevMatched : List Component) (cs : List Component) :
    ∀ i, activatedFrom prevMatched i true cs = cs := by
  induction cs with
  | nil => intro i; rfl
  | cons c cs ih => intro i; simp [activatedFrom, ih]

/-- The filter of `beforeResolve`, started at index `k` with the flag unset, drops
the components before the first one that passes the test. -/
theorem activatedFrom_false (prevMatched : List Component) (cs : List Component) :
    ∀ k i, i ≤ cs.length →
      (∀ j c, j < i → cs.get? j = some c → differs prevMatched (k + j) c = false) →
      (∀ c, cs.get? i = some c → differs prevMatched (k + i) c = true) →
      activatedFrom prevMatched k false cs = cs.drop i := by
  induction cs with
  | nil => intro k i hi _ _; simp [activatedFrom]
  | cons c cs ih =>
    intro k i hi hlt hat
    cases i with
    | zero =>
      have h0 : differs prevMatched k c = true := by simpa using hat c rfl
      simp [activatedFrom, h0, activatedFrom_true]
    | succ i =>
      have h0 : differs prevMatched k c = false := by
        simpa using hlt 0 c (Nat.succ_pos i) rfl
      have hrec := ih (k + 1) i (Nat.le_of_succ_le_succ hi)
        (fun j d hj hd => by
          have := hlt (j + 1) d (Nat.succ_lt_succ hj) (by simpa using hd)
          simpa [Nat.add_assoc, Nat.add_comm 1 j] using this)
        (fun d hd => by
          have := hat d (by simpa using hd)
          simpa [Nat.add_assoc, Nat.add_comm 1 i] using this)
      simp [activatedFrom, h0, hrec]

/-- Keeping the defined `fetch` functions and then calling each is one pass that
calls the `fetch` of every component that has one. -/
theorem hooks_calls (store : Nat) (to_ from_ : String) (cs : List Component) :
    ((cs.map Component.fetch).filter Option.isSome).filterMap
        (fun hook => hook.map (fun f => (⟨f, store, to_, from_⟩ : FetchCall)))
      = cs.filterMap
        (fun c => c.fetch.map (fun f => (⟨f, store, to_, from_⟩ : FetchCall))) := by
  induction cs with
  | nil => rfl
  | cons c cs ih =>
    cases hf : c.fetch with
    | none => simpa [List.filterMap_cons, hf] using ih
    | some f => simpa [List.filterMap_cons, hf] using ih

/-- C10: in `beforeResolve`, if `i` is the first index at which `matched[i]` is
not the object `prevMatched[i]` or has a truthy `refetch` (`i = matched.length`
when there is none), then `activated` is the suffix of `matched` from `i` on
(empty when there is none), and the `fetch` calls made are exactly the defined
`fetch` functions of the activated components, in order, each with
`(store, to, from)`. -/
theorem beforeResolve_activated (getMatchedComponents : String → List Component)
    (run : Fetcher) (store : Nat) (to_ from_ : String) (i : Nat)
    (hi : i ≤ (getMatchedComponents to_).length)
    (hbefore : ∀ j c, j < i → (getMatchedComponents to_).get? j = some c →
      differs (getMatchedComponents from_) j c = false)
    (hat : ∀ c, (getMatchedComponents to_).get? i = some c →
      differs (getMatchedComponents from_) i c = true) :
    activatedFrom (getMatchedComponents from_) 0 false (getMatchedComponents to_)
      = (getMatchedComponents to_).drop i ∧
    (beforeResolve getMatchedComponents run store to_ from_).fetchCalls
      = ((getMatchedComponents to_).drop i).filterMap
          (fun c => c.fetch.map (fun f => (⟨f, store, to_, from_⟩ : FetchCall))) := by
  have hact := activatedFrom_false (getMatchedComponents from_)
    (getMatchedComponents to_) 0 i hi (by simpa using hbefore) (by simpa using hat)
  refine ⟨hact, ?_⟩
  simp only [beforeResolve, hact]
  have hcalls := hooks_calls store to_ from_ ((getMatchedComponents to_).drop i)
  split_ifs with h1 h2
  · exact hcalls
  · exact hcalls
  · have hnil : ((List.drop i (getMatchedComponents to_)).map Component.fetch).filter
        Option.isSome = [] := by
      apply List.eq_nil_of_length_eq_zero
      simpa using h1
    rw [← hcalls, hnil]
    rfl

/-- The `beforeResolve` theorem on a route change `/a/b` to `/a/c` under a shared
parent: the parent (object 1) is kept out, the child (object 3) is activated and
its `fetch` (function 30) is the one call. -/
theorem beforeResolve_activated_witness :
    (beforeResolve
      (fun r => if r = "/a/c" then [⟨1, some 10, false⟩, ⟨3, some 30, false⟩]
        else [⟨1, some 10, false⟩, ⟨2, some 20, false⟩])
      (fun _ => Settled.resolved) 0 "/a/c" "/a/b").fetchCalls
      = [⟨30, 0, "/a/c", "/a/b"⟩] :=
  (beforeResolve_activated
    (fun r => if r = "/a/c" then [⟨1, some 10, false⟩, ⟨3, some 30, false⟩]
      else [⟨1, some 10, false⟩, ⟨2, some 20, false⟩])
    (fun _ => Settled.resolved) 0 "/a/c" "/a/b" 1 (by decide)
    (by
      intro j c hj h
      obtain rfl : j = 0 := by omega
      obtain rfl : (⟨1, some 10, false⟩ : Component) = c := by simpa using h
      decide)
    (by
      intro c h
      obtain rfl : (⟨3, some 30, false⟩ : Component) = c := by simpa using h
      decide)).2

/-! ## Theorems: the render handler on a miss -/

/-- When `render` does not answer from the cache it is `renderMiss` on the cache
left by the lookup (the cache itself when the request is not cacheable). -/
theorem render_eq_renderMiss (env : Env) (cache : LRU) (renderer : Renderer)
    (req : Request) (now : Nat)
    (hmiss : isCacheable env req = false ∨ truthy (cache.get req.url now).1 = false) :
    render env cache renderer req now
      = renderMiss env (isCacheable env req) renderer req now
          ((Response.fresh.setHeader "Content-Type" "text/html").setHeader
            "Server" env.serverInfo)
          (if isCacheable env req then (cache.get req.url now).2 else cache)
          (if isCacheable env req then [Effect.cacheGet req.url] else []) := by
  cases hc : isCacheable env req with
  | false => simp [render, hc]
  | true =>
    have ht : truthy (cache.get req.url now).1 = false := by
      rcases hmiss with h | h
      · rw [hc] at h; cases h
      · exact h
    simp [render, hc, ht]

/-- C3 as stated fails: a render completes with an error object that carries no
status.  The status expression is `undefined`, `res.end` refuses it and throws, and
no response is sent, neither with the stated status 200 nor with any other. -/
theorem render_status_of_error_without_status :
    statedStatus (some ⟨none⟩) = some 200 ∧
    callbackStatus (some ⟨none⟩) = none ∧
    (render ⟨none, none, none, "express"⟩ microCache
        (fun _ => ⟨none, some "<p>gone</p>", some ⟨some ⟨some ⟨none⟩⟩⟩, 5⟩)
        ⟨true, "example.org", "/gone"⟩ 0).threw = true ∧
    (render ⟨none, none, none, "express"⟩ microCache
        (fun _ => ⟨none, some "<p>gone</p>", some ⟨some ⟨some ⟨none⟩⟩⟩, 5⟩)
        ⟨true, "example.org", "/gone"⟩ 0).res.finished = false ∧
    (render ⟨none, none, none, "express"⟩ microCache
        (fun _ => ⟨none, some "<p>gone</p>", some ⟨some ⟨some ⟨none⟩⟩⟩, 5⟩)
        ⟨true, "example.org", "/gone"⟩ 0).res.body = none := by
  decide

/-- C3, amended: for every request that is not answered from the cache, whose
renderer left a `state.context` object `m` on the render context and for which the
status expression `error ? error.status : 200` over `m.error` is a status code in
100..999, the callback completes, the response is sent with the HTML the renderer
produced as body, and its status is the status of `m.error` when that error is
present and 200 when it is absent. -/
theorem render_miss_response (env : Env) (cache : LRU) (renderer : Renderer)
    (req : Request) (now : Nat) (m : ContextModule)
    (hmiss : isCacheable env req = false ∨ truthy (cache.get req.url now).1 = false)
    (hstate : (renderer req.url).state.bind AppState.context = some m)
    (hvalid : validStatusCode (callbackStatus m.error) = true) :
    (render env cache renderer req now).threw = false ∧
    (render env cache renderer req now).res.finished = true ∧
    (render env cache renderer req now).res.body = (renderer req.url).html ∧
    (render env cache renderer req now).res.statusCode
      = (match m.error with
        | some e => e.status
        | none => some 200) ∧
    (render env cache renderer req now).effects.filter Effect.isRender
      = [Effect.renderToString req.url] := by
  rw [render_eq_renderMiss env cache renderer req now hmiss,
    renderMiss_sent _ _ _ _ _ _ _ _ m hstate hvalid]
  refine ⟨rfl, rfl, rfl, ?_, ?_⟩
  · cases m.error <;> rfl
  · cases isCacheable env req <;> cases (renderer req.url).failure <;>
      cases isProd env <;> simp [Effect.isRender]

/-- The amended C3 at a not-found page: error status 404, body as rendered. -/
theorem render_miss_response_witness :
    (render ⟨none, none, none, "express"⟩ microCache
        (fun _ => ⟨none, some "<p>gone</p>", some ⟨some ⟨some ⟨some 404⟩⟩⟩, 5⟩)
        ⟨true, "example.org", "/gone"⟩ 0).res.statusCode = some 404 :=
  (render_miss_response ⟨none, none, none, "express"⟩ microCache
    (fun _ => ⟨none, some "<p>gone</p>", some ⟨some ⟨some ⟨some 404⟩⟩⟩, 5⟩)
    ⟨true, "example.org", "/gone"⟩ 0 ⟨some ⟨some 404⟩⟩ (Or.inr (by decide)) rfl
    (by decide)).2.2.2.1

/-- C4 as stated fails: the renderer reports a failure for a cacheable request and
the callback, which responds with status 200, still writes the partial HTML into
the micro-cache. -/
theorem render_caches_failed_render :
    (render ⟨none, none, none, "express"⟩ microCache
        (fun _ => ⟨some "boom", some "<p>half", some ⟨some ⟨none⟩⟩, 5⟩)
        ⟨true, "example.org", "/a"⟩ 0).res.statusCode = some 200 ∧
    (render ⟨none, none, none, "express"⟩ microCache
        (fun _ => ⟨some "boom", some "<p>half", some ⟨some ⟨none⟩⟩, 5⟩)
        ⟨true, "example.org", "/a"⟩ 0).effects.filter Effect.isCacheSet
      = [Effect.cacheSet "/a" (some "<p>half")] ∧
    (render ⟨none, none, none, "express"⟩ microCache
        (fun _ => ⟨some "boom", some "<p>half", some ⟨some ⟨none⟩⟩, 5⟩)
        ⟨true, "example.org", "/a"⟩ 0).cache
      = ⟨100, 1000, [⟨"/a", some "<p>half", 1005⟩]⟩ ∧
    (render ⟨none, none, none, "express"⟩ microCache
        (fun _ => ⟨some "boom", some "<p>half", some ⟨some ⟨none⟩⟩, 5⟩)
        ⟨true, "example.org", "/a"⟩ 0).cache ≠ microCache := by
  decide

/-- C4, amended: after a cache-miss render whose callback runs to its end (the
renderer left a `state.context` object and the status expression over its error is
a status code in 100..999, so that the response is sent), the micro-cache is
written if and only if the request was cacheable, whether or not the renderer
reported a failure: for a cacheable request there is exactly one write, of the
rendered HTML under the request URL at the completion time; for a request that is
not cacheable there is no write and the cache is left unchanged. -/
theorem render_miss_cache_write (env : Env) (cache : LRU) (renderer : Renderer)
    (req : Request) (now : Nat) (m : ContextModule)
    (hmiss : isCacheable env req = false ∨ truthy (cache.get req.url now).1 = false)
    (hstate : (renderer req.url).state.bind AppState.context = some m)
    (hvalid : validStatusCode (callbackStatus m.error) = true) :
    (isCacheable env req = true →
      (render env cache renderer req now).effects.filter Effect.isCacheSet
        = [Effect.cacheSet req.url (renderer req.url).html] ∧
      (render env cache renderer req now).cache
        = (cache.get req.url now).2.set req.url (renderer req.url).html
            (now + (renderer req.url).elapsed)) ∧
    (isCacheable env req = false →
      (render env cache renderer req now).effects.filter Effect.isCacheSet = [] ∧
      (render env cache renderer req now).cache = cache) := by
  rw [render_eq_renderMiss env cache renderer req now hmiss,
    renderMiss_sent _ _ _ _ _ _ _ _ m hstate hvalid]
  constructor <;> intro hc <;> rw [hc] <;>
    cases (renderer req.url).failure <;> cases isProd env <;>
    simp [Effect.isCacheSet]

/-- The amended C4 at a failed render of a cacheable request: one write. -/
theorem render_miss_cache_write_witness :
    (render ⟨none, none, none, "express"⟩ microCache
        (fun _ => ⟨some "boom", some "<p>half", some ⟨some ⟨none⟩⟩, 5⟩)
        ⟨true, "example.org", "/a"⟩ 0).effects.filter Effect.isCacheSet
      = [Effect.cacheSet "/a" (some "<p>half")] :=
  ((render_miss_cache_write ⟨none, none, none, "express"⟩ microCache
    (fun _ => ⟨some "boom", some "<p>half", some ⟨some ⟨none⟩⟩, 5⟩)
    ⟨true, "example.org", "/a"⟩ 0 ⟨none⟩ (Or.inr (by decide)) rfl (by decide)).1
    (by decide)).1

/-- C5, the code at the failing input: the renderer reports a failure without
HTML and without having set `state` on the render context.  The callback throws
while reading `context.state.context`: no response is sent, and the run of
requests ends there, the next request is not served. -/
theorem render_failure_without_state_throws :
    (render ⟨none, none, none, "express"⟩ microCache
        (fun _ => ⟨some "boom", none, none, 5⟩)
        ⟨true, "example.org", "/a"⟩ 0).threw = true ∧
    (render ⟨none, none, none, "express"⟩ microCache
        (fun _ => ⟨some "boom", none, none, 5⟩)
        ⟨true, "example.org", "/a"⟩ 0).res.finished = false ∧
    serveAll ⟨none, none, none, "express"⟩ microCache
        [ ⟨⟨true, "example.org", "/a"⟩, 0, fun _ => ⟨some "boom", none, none, 5⟩⟩,
          ⟨⟨true, "example.org", "/b"⟩, 9,
            fun _ => ⟨none, some "<p>b</p>", some ⟨some ⟨none⟩⟩, 5⟩⟩ ]
      = none := by
  decide

/-! ## Theorems: the micro-cache lookup -/

/-- A lookup that returns a truthy value found a live entry and moved it to the
front. -/
theorem LRU.get_truthy (c : LRU) (key : String) (now : Nat)
    (h : truthy (c.get key now).1 = true) :
    ∃ e, e ∈ c.entries ∧ (c.get key now).2 = { c with entries := e :: c.entries.erase e } := by
  unfold LRU.get at h ⊢
  cases hf : c.entries.find? (fun e => e.key == key) with
  | none => simp [hf, truthy] at h
  | some e =>
    by_cases hs : e.expires < now
    · simp [hf, hs, truthy] at h
    · exact ⟨e, List.mem_of_find?_eq_some hf, by simp [hf, hs]⟩

/-- When the lookup returns a truthy value, `render` answers with it at once. -/
theorem render_eq_hit (env : Env) (cache : LRU) (renderer : Renderer) (req : Request)
    (now : Nat) (hflag : useMicroCache env = true)
    (ht : truthy (cache.get req.url now).1 = true) :
    render env cache renderer req now
      = ⟨{ (Response.fresh.setHeader "Content-Type" "text/html").setHeader
            "Server" env.serverInfo with
            body := (cache.get req.url now).1, finished := true },
          (cache.get req.url now).2,
          [Effect.cacheGet req.url] ++
            (if !isProd env then [Effect.consoleLog "cache hit!"] else []),
          false⟩ := by
  simp [render, isCacheable, hflag, ht, Response.end_, Response.setHeader,
    Response.fresh, validStatusCode]

/-- C1 as stated fails: the lookup returns the stored HTML value, the empty
string, and `render` still invokes the renderer, answers with the new render and
writes the cache. -/
theorem render_empty_stored_value_rerenders :
    (LRU.get ⟨100, 1000, [⟨"/a", some "", 1000⟩]⟩ "/a" 10).1 = some "" ∧
    (render ⟨none, none, none, "express"⟩ ⟨100, 1000, [⟨"/a", some "", 1000⟩]⟩
        (fun _ => ⟨none, some "<p>new</p>", some ⟨some ⟨none⟩⟩, 5⟩)
        ⟨true, "example.org", "/a"⟩ 10).effects.filter Effect.isRender
      = [Effect.renderToString "/a"] ∧
    (render ⟨none, none, none, "express"⟩ ⟨100, 1000, [⟨"/a", some "", 1000⟩]⟩
        (fun _ => ⟨none, some "<p>new</p>", some ⟨some ⟨none⟩⟩, 5⟩)
        ⟨true, "example.org", "/a"⟩ 10).res.body = some "<p>new</p>" ∧
    (render ⟨none, none, none, "express"⟩ ⟨100, 1000, [⟨"/a", some "", 1000⟩]⟩
        (fun _ => ⟨none, some "<p>new</p>", some ⟨some ⟨none⟩⟩, 5⟩)
        ⟨true, "example.org", "/a"⟩ 10).effects.filter Effect.isCacheSet
      = [Effect.cacheSet "/a" (some "<p>new</p>")] := by
  decide

/-- C1, amended: with the micro-cache enabled, if `microCache.get(req.url)` returns
a non-empty stored HTML value, then the response is sent with exactly that value as
body and status 200, the renderer is not invoked, no `set` is performed, and the
cache holds the same entries as before (the lookup only moved the hit to the
front). -/
theorem render_hit (env : Env) (cache : LRU) (renderer : Renderer) (req : Request)
    (now : Nat) (html : String)
    (hflag : useMicroCache env = true)
    (hget : (cache.get req.url now).1 = some html) (hne : html ≠ "") :
    (render env cache renderer req now).res.body = some html ∧
    (render env cache renderer req now).res.statusCode = some 200 ∧
    (render env cache renderer req now).res.finished = true ∧
    (render env cache renderer req now).threw = false ∧
    (render env cache renderer req now).effects.filter Effect.isRender = [] ∧
    (render env cache renderer req now).effects.filter Effect.isCacheSet = [] ∧
    (render env cache renderer req now).cache = (cache.get req.url now).2 ∧
    (render env cache renderer req now).cache.entries.Perm cache.entries ∧
    (render env cache renderer req now).cache.max = cache.max ∧
    (render env cache renderer req now).cache.maxAge = cache.maxAge := by
  have ht : truthy (cache.get req.url now).1 = true := by simp [hget, truthy, hne]
  obtain ⟨e, hmem, hc⟩ := LRU.get_truthy cache req.url now ht
  rw [render_eq_hit env cache renderer req now hflag ht, hget, hc]
  refine ⟨rfl, rfl, rfl, rfl, ?_, ?_, rfl, (List.perm_cons_erase hmem).symm, rfl, rfl⟩
  · cases isProd env <;> simp [Effect.isRender]
  · cases isProd env <;> simp [Effect.isCacheSet]

/-- The amended C1 on a cache that holds `<p>a</p>` under `/a`. -/
theorem render_hit_witness :
    (render ⟨none, none, none, "express"⟩ ⟨100, 1000, [⟨"/a", some "<p>a</p>", 1000⟩]⟩
        (fun _ => ⟨none, some "<p>new</p>", some ⟨some ⟨none⟩⟩, 5⟩)
        ⟨true, "example.org", "/a"⟩ 10).res.body = some "<p>a</p>" :=
  (render_hit ⟨none, none, none, "express"⟩ ⟨100, 1000, [⟨"/a", some "<p>a</p>", 1000⟩]⟩
    (fun _ => ⟨none, some "<p>new</p>", some ⟨some ⟨none⟩⟩, 5⟩)
    ⟨true, "example.org", "/a"⟩ 10 "<p>a</p>" (by decide) (by decide) (by decide)).1

/-! ## Theorems: an entry stays in the micro-cache -/

/-- An entry under another key at the head is in front. -/
theorem ahead_cons_ne (u : String) (y : CacheEntry) (l : List CacheEntry)
    (hy : y.key ≠ u) : ahead u (y :: l) = y :: ahead u l := by
  simp [ahead, List.takeWhile_cons, hy]

/-- Nothing is in front of an entry under the key at the head. -/
theorem ahead_cons_eq (u : String) (y : CacheEntry) (l : List CacheEntry)
    (hy : y.key = u) : ahead u (y :: l) = [] := by
  simp [ahead, List.takeWhile_cons, hy]

/-- Removing an entry under another key does not change what a search finds. -/
theorem find_erase (u : String) (e : CacheEntry) (he : e.key ≠ u) :
    ∀ l : List CacheEntry,
      (l.erase e).find? (fun a => a.key == u) = l.find? (fun a => a.key == u) := by
  intro l
  induction l with
  | nil => rfl
  | cons a l ih =>
    by_cases hae : a = e
    · subst hae
      simp [List.find?_cons, he]
    · have hb : (a == e) = false := by simpa using hae
      rw [List.erase_cons, hb]
      simp only [Bool.false_eq_true, if_false, List.find?_cons, ih]

/-- Removing an entry under another key removes it from the entries in front. -/
theorem ahead_erase (u : String) (e : CacheEntry) (he : e.key ≠ u) :
    ∀ l : List CacheEntry, ahead u (l.erase e) = (ahead u l).erase e := by
  intro l
  induction l with
  | nil => rfl
  | cons a l ih =>
    by_cases hae : a = e
    · subst hae
      rw [ahead_cons_ne u a l he]
      simp
    · have hb : (a == e) = false := by simpa using hae
      rw [List.erase_cons, hb]
      simp only [Bool.false_eq_true, if_false]
      by_cases hau : a.key = u
      · rw [ahead_cons_eq u a _ hau, ahead_cons_eq u a _ hau]
        rfl
      · rw [ahead_cons_ne u a _ hau, ahead_cons_ne u a _ hau, List.erase_cons, hb, ih]
        simp

/-- Cutting the list behind the entries in front keeps the search and the entries
in front. -/
theorem find_take (u : String) (x : CacheEntry) :
    ∀ (l : List CacheEntry) (n : Nat), l.find? (fun a => a.key == u) = some x →
      (ahead u l).length < n →
      (l.take n).find? (fun a => a.key == u) = some x ∧
        ahead u (l.take n) = ahead u l := by
  intro l
  induction l with
  | nil => intro n hf _; simp at hf
  | cons a l ih =>
    intro n hf hlen
    cases n with
    | zero => omega
    | succ n =>
      rw [List.take_succ_cons]
      by_cases hau : a.key = u
      · rw [ahead_cons_eq u a _ hau, ahead_cons_eq u a _ hau]
        refine ⟨?_, rfl⟩
        simpa [List.find?_cons, hau] using hf
      · rw [ahead_cons_ne u a _ hau] at hlen ⊢
        rw [ahead_cons_ne u a _ hau]
        have hf2 : l.find? (fun a => a.key == u) = some x := by
          simpa [List.find?_cons, hau] using hf
        obtain ⟨h1, h2⟩ := ih n hf2 (by simpa using hlen)
        refine ⟨?_, by rw [h2]⟩
        simpa [List.find?_cons, hau] using h1

/-- When no entry is under the key `v`, none of the entries in front is. -/
theorem ahead_no_key_none (u v : String) (l : List CacheEntry)
    (hf : l.find? (fun a => a.key == v) = none) : ∀ a ∈ ahead u l, a.key ≠ v := by
  intro a ha
  have hmem : a ∈ l := (List.takeWhile_sublist _).subset ha
  have := (List.find?_eq_none.mp hf) a hmem
  simpa using this

/-- When the entries in front have distinct keys, removing the first entry under
the key `v` leaves none of them under `v`. -/
theorem ahead_no_key_erase (u v : String) (e : CacheEntry) :
    ∀ l : List CacheEntry, l.find? (fun a => a.key == v) = some e →
      ((ahead u l).map CacheEntry.key).Nodup →
      ∀ a ∈ (ahead u l).erase e, a.key ≠ v := by
  intro l
  induction l with
  | nil => intro hf; simp at hf
  | cons b l ih =>
    intro hf hnd a ha
    by_cases hbu : b.key = u
    · rw [ahead_cons_eq u b _ hbu] at ha
      simp at ha
    · rw [ahead_cons_ne u b _ hbu] at ha hnd
      by_cases hbv : b.key = v
      · have hbe : b = e := by simpa [List.find?_cons, hbv] using hf
        subst hbe
        rw [List.erase_cons_head] at ha
        simp only [List.map_cons, List.nodup_cons, List.mem_map, not_exists, not_and] at hnd
        intro hav
        exact hnd.1 a ha (by rw [hav, hbv])
      · have hf2 : l.find? (fun a => a.key == v) = some e := by
          simpa [List.find?_cons, hbv] using hf
        have hev : e.key = v := by simpa using List.find?_some hf2
        have hne : ¬ b = e := by
          intro h
          apply hbv
          rw [h, hev]
        have hb : (b == e) = false := by simpa using hne
        rw [List.erase_cons, hb] at ha
        simp only [Bool.false_eq_true, if_false, List.mem_cons] at ha
        rcases ha with rfl | ha
        · exact hbv
        · exact ih hf2 (by simpa using (List.nodup_cons.mp hnd).2) a ha

/-- Entries with distinct keys, all among `urls`, are no more than the distinct
`urls`. -/
theorem length_le_dedup (urls : List String) (l : List CacheEntry)
    (hnd : (l.map CacheEntry.key).Nodup) (hs : ∀ e ∈ l, e.key ∈ urls) :
    l.length ≤ urls.dedup.length := by
  have hsub : l.map CacheEntry.key ⊆ urls.dedup := by
    intro k hk
    obtain ⟨e, he, rfl⟩ := List.mem_map.mp hk
    exact List.mem_dedup.mpr (hs e he)
  have := (List.subperm_of_subset hnd hsub).length_le
  simpa using this

/-- Removing an entry under another key keeps a held entry held. -/
theorem heldBehind_erase (x : CacheEntry) (urls : List String) (e : CacheEntry)
    (l : List CacheEntry) (he : e.key ≠ x.key) (h : heldBehind x urls l) :
    heldBehind x urls (l.erase e) := by
  obtain ⟨hf, hnd, hs⟩ := h
  refine ⟨by rw [find_erase x.key e he, hf], ?_, ?_⟩
  · rw [ahead_erase x.key e he]
    exact hnd.sublist ((List.erase_sublist e _).map CacheEntry.key)
  · rw [ahead_erase x.key e he]
    intro a ha
    exact hs a (List.mem_of_mem_erase ha)

/-- Putting in front an entry under another key, one of `urls` that no entry in
front has, keeps a held entry held. -/
theorem heldBehind_cons (x : CacheEntry) (urls : List String) (y : CacheEntry)
    (l : List CacheEntry) (hy : y.key ≠ x.key) (hin : y.key ∈ urls)
    (hnew : ∀ a ∈ ahead x.key l, a.key ≠ y.key) (h : heldBehind x urls l) :
    heldBehind x urls (y :: l) := by
  obtain ⟨hf, hnd, hs⟩ := h
  refine ⟨by simpa [List.find?_cons, hy] using hf, ?_, ?_⟩
  · rw [ahead_cons_ne x.key y l hy]
    simp only [List.map_cons, List.nodup_cons, List.mem_map, not_exists, not_and]
    exact ⟨fun a ha => hnew a ha, hnd⟩
  · rw [ahead_cons_ne x.key y l hy]
    intro a ha
    rcases List.mem_cons.mp ha with rfl | ha
    · exact hin
    · exact hs a ha

/-- Cutting the list at a capacity above the number of distinct `urls` keeps a
held entry held. -/
theorem heldBehind_take (x : CacheEntry) (urls : List String) (l : List CacheEntry)
    (n : Nat) (hn : urls.dedup.length < n) (h : heldBehind x urls l) :
    heldBehind x urls (l.take n) := by
  obtain ⟨hf, hnd, hs⟩ := h
  have hlen : (ahead x.key l).length < n :=
    Nat.lt_of_le_of_lt (length_le_dedup urls _ hnd hs) hn
  obtain ⟨h1, h2⟩ := find_take x.key x l n hf hlen
  exact ⟨h1, by rw [h2]; exact hnd, by rw [h2]; exact hs⟩

/-- A lookup keeps the capacity and the time to live of the cache. -/
theorem LRU.get_max (c : LRU) (key : String) (now : Nat) :
    (c.get key now).2.max = c.max ∧ (c.get key now).2.maxAge = c.maxAge := by
  unfold LRU.get
  cases c.entries.find? (fun e => e.key == key) with
  | none => exact ⟨rfl, rfl⟩
  | some e => by_cases hs : e.expires < now <;> simp [hs]

/-- A lookup under another key, one of `urls`, keeps a held entry held. -/
theorem LRU.get_other_held (c : LRU) (x : CacheEntry) (urls : List String)
    (key : String) (now : Nat) (hkey : key ≠ x.key) (hin : key ∈ urls)
    (h : heldBehind x urls c.entries) :
    heldBehind x urls (c.get key now).2.entries := by
  unfold LRU.get
  cases hf : c.entries.find? (fun e => e.key == key) with
  | none => exact h
  | some e =>
    have hek : e.key = key := by simpa using List.find?_some hf
    have hne : e.key ≠ x.key := by rw [hek]; exact hkey
    by_cases hs : e.expires < now
    · simpa [hs] using heldBehind_erase x urls e _ hne h
    · have hnew : ∀ a ∈ ahead x.key (c.entries.erase e), a.key ≠ e.key := by
        rw [ahead_erase x.key e hne, hek]
        exact ahead_no_key_erase x.key key e _ hf h.2.1
      simpa [hs] using heldBehind_cons x urls e _ hne (by rw [hek]; exact hin) hnew
        (heldBehind_erase x urls e _ hne h)

/-- A write under another key, one of `urls`, into a cache whose capacity exceeds
the number of distinct `urls` keeps a held entry held. -/
theorem LRU.set_other_held (c : LRU) (x : CacheEntry) (urls : List String)
    (key : String) (value : Option String) (now : Nat) (hkey : key ≠ x.key)
    (hin : key ∈ urls) (hcap : urls.dedup.length < c.max)
    (h : heldBehind x urls c.entries) :
    heldBehind x urls (c.set key value now).entries := by
  unfold LRU.set
  apply heldBehind_take x urls _ _ hcap
  cases hf : c.entries.find? (fun e => e.key == key) with
  | none =>
    exact heldBehind_cons x urls _ _ hkey hin
      (ahead_no_key_none x.key key _ hf) h
  | some e =>
    have hek : e.key = key := by simpa using List.find?_some hf
    have hne : e.key ≠ x.key := by rw [hek]; exact hkey
    have hnew : ∀ a ∈ ahead x.key (c.entries.erase e), a.key ≠ key := by
      rw [ahead_erase x.key e hne]
      exact ahead_no_key_erase x.key key e _ hf h.2.1
    exact heldBehind_cons x urls _ _ hkey hin hnew (heldBehind_erase x urls e _ hne h)

/-- A lookup under the key of a held entry that has not expired returns its value
and moves it to the front. -/
theorem LRU.get_own (c : LRU) (x : CacheEntry) (urls : List String) (now : Nat)
    (h : heldBehind x urls c.entries) (hlive : now ≤ x.expires) :
    (c.get x.key now).1 = x.value ∧ heldBehind x urls (c.get x.key now).2.entries := by
  have hs : ¬ x.expires < now := by omega
  refine ⟨by simp [LRU.get, h.1, hs], ?_⟩
  have he : (c.get x.key now).2.entries = x :: c.entries.erase x := by
    simp [LRU.get, h.1, hs]
  rw [he]
  refine ⟨by simp [List.find?_cons], ?_, ?_⟩
  · rw [ahead_cons_eq x.key x _ rfl]
    exact List.nodup_nil
  · rw [ahead_cons_eq x.key x _ rfl]
    intro a ha
    cases ha

/-- A write leaves its entry held at the front of a cache of positive capacity. -/
theorem LRU.set_own (c : LRU) (urls : List String) (key : String)
    (value : Option String) (now : Nat) (hmax : 0 < c.max) :
    heldBehind ⟨key, value, now + c.maxAge⟩ urls (c.set key value now).entries := by
  unfold LRU.set
  obtain ⟨n, hn⟩ : ∃ n, c.max = n + 1 := ⟨c.max - 1, by omega⟩
  simp only [hn, List.take_succ_cons]
  refine ⟨by simp [List.find?_cons], ?_, ?_⟩
  · rw [ahead_cons_eq _ _ _ rfl]
    exact List.nodup_nil
  · rw [ahead_cons_eq _ _ _ rfl]
    intro a ha
    cases ha

/-- The cache `render` leaves behind is the one it was given, the one left by the
lookup, or the one left by the lookup and the write of the callback. -/
theorem render_cache (env : Env) (c : LRU) (renderer : Renderer) (req : Request)
    (now : Nat) :
    (render env c renderer req now).cache = c ∨
    (render env c renderer req now).cache = (c.get req.url now).2 ∨
    (render env c renderer req now).cache
      = (c.get req.url now).2.set req.url (renderer req.url).html
          (now + (renderer req.url).elapsed) := by
  cases h1 : isCacheable env req <;> cases h2 : truthy (c.get req.url now).1 <;>
    cases h3 : (renderer req.url).state.bind AppState.context <;>
    simp [render, renderMiss, renderCallback, h1, h2, h3, Response.end_,
      Response.status, Response.setHeader, Response.fresh, validStatusCode] <;>
    split <;> simp

/-- Handling one request keeps a held entry held, when its value is non-empty, the
request arrives before the entry expires if it is for the key of the entry, and is
for one of `urls`, fewer than the capacity, if it is not. -/
theorem render_held (env : Env) (c : LRU) (renderer : Renderer) (req : Request)
    (now : Nat) (x : CacheEntry) (urls : List String) (html : String)
    (hflag : useMicroCache env = true) (hval : x.value = some html) (hne : html ≠ "")
    (hcap : urls.dedup.length < c.max)
    (hown : req.url = x.key → now ≤ x.expires)
    (hother : req.url ≠ x.key → req.url ∈ urls)
    (h : heldBehind x urls c.entries) :
    heldBehind x urls (render env c renderer req now).cache.entries ∧
    (render env c renderer req now).cache.max = c.max := by
  by_cases hu : req.url = x.key
  · obtain ⟨hget, hheld⟩ := LRU.get_own c x urls now h (hown hu)
    rw [← hu] at hget hheld
    have ht : truthy (c.get req.url now).1 = true := by simp [hget, hval, truthy, hne]
    rw [render_eq_hit env c renderer req now hflag ht]
    exact ⟨hheld, (LRU.get_max c req.url now).1⟩
  · have hg := LRU.get_other_held c x urls req.url now hu (hother hu) h
    rcases render_cache env c renderer req now with hc | hc | hc <;> rw [hc]
    · exact ⟨h, rfl⟩
    · exact ⟨hg, (LRU.get_max c req.url now).1⟩
    · exact ⟨LRU.set_other_held _ x urls req.url _ _ hu (hother hu)
        (by rw [(LRU.get_max c req.url now).1]; exact hcap) hg,
        (LRU.get_max c req.url now).1⟩

/-- Handling a run of requests keeps a held entry held, under the conditions of
`render_held` for each of them. -/
theorem cacheAfter_held (env : Env) (x : CacheEntry) (urls : List String)
    (html : String) (hflag : useMicroCache env = true) (hval : x.value = some html)
    (hne : html ≠ "") :
    ∀ (jobs : List Job) (c : LRU), urls.dedup.length < c.max →
      (∀ j ∈ jobs, j.req.url = x.key → j.now ≤ x.expires) →
      (∀ j ∈ jobs, j.req.url ≠ x.key → j.req.url ∈ urls) →
      heldBehind x urls c.entries →
      heldBehind x urls (cacheAfter env c jobs).entries := by
  intro jobs
  induction jobs with
  | nil => intro c _ _ _ h; exact h
  | cons j js ih =>
    intro c hcap hown hother h
    obtain ⟨h1, hmax⟩ := render_held env c j.renderer j.req j.now x urls html hflag
      hval hne hcap (hown j (List.mem_cons_self _ _))
      (hother j (List.mem_cons_self _ _)) h
    exact ih _ (by rw [hmax]; exact hcap)
      (fun j2 hj2 => hown j2 (List.mem_cons_of_mem _ hj2))
      (fun j2 hj2 => hother j2 (List.mem_cons_of_mem _ hj2)) h1

/-- The cache left by a cacheable request that missed and whose callback ran to
its end. -/
theorem render_miss_cache (env : Env) (cache : LRU) (renderer : Renderer)
    (req : Request) (now : Nat) (m : ContextModule)
    (hflag : useMicroCache env = true)
    (hmiss : truthy (cache.get req.url now).1 = false)
    (hstate : (renderer req.url).state.bind AppState.context = some m)
    (hvalid : validStatusCode (callbackStatus m.error) = true) :
    (render env cache renderer req now).cache
      = (cache.get req.url now).2.set req.url (renderer req.url).html
          (now + (renderer req.url).elapsed) := by
  have hc : isCacheable env req = true := hflag
  rw [render_eq_renderMiss env cache renderer req now (Or.inr hmiss),
    renderMiss_sent _ _ _ _ _ _ _ _ m hstate hvalid]
  simp [hc]

set_option maxRecDepth 100000 in
/-- C2 as stated fails, in two ways.  First, `/a` is rendered to `<p>a</p>` at time
0, then 100 requests for the distinct URLs `/p0` ... `/p99` are served, and a
request for `/a` at time 500, inside the one-second window, invokes the renderer
and answers with its new output: the entry was evicted.  Second, `/e` is rendered
to the empty string at time 0 and a request for `/e` at time 10 invokes the
renderer and answers with its new output.  Every render here is answered with
status 200. -/
theorem render_repeat_rerenders :
    (render ⟨none, none, none, "express"⟩
        (cacheAfter ⟨none, none, none, "express"⟩
          (render ⟨none, none, none, "express"⟩ microCache
            (fun _ => ⟨none, some "<p>a</p>", some ⟨some ⟨none⟩⟩, 1⟩)
            ⟨true, "example.org", "/a"⟩ 0).cache
          ((List.range 100).map (fun i =>
            ⟨⟨true, "example.org", "/p" ++ toString i⟩, 2 + i,
              fun _ => ⟨none, some "<p>p</p>", some ⟨some ⟨none⟩⟩, 0⟩⟩)))
        (fun _ => ⟨none, some "<p>again</p>", some ⟨some ⟨none⟩⟩, 1⟩)
        ⟨true, "example.org", "/a"⟩ 500).effects.filter Effect.isRender
      = [Effect.renderToString "/a"] ∧
    (render ⟨none, none, none, "express"⟩
        (cacheAfter ⟨none, none, none, "express"⟩
          (render ⟨none, none, none, "express"⟩ microCache
            (fun _ => ⟨none, some "<p>a</p>", some ⟨some ⟨none⟩⟩, 1⟩)
            ⟨true, "example.org", "/a"⟩ 0).cache
          ((List.range 100).map (fun i =>
            ⟨⟨true, "example.org", "/p" ++ toString i⟩, 2 + i,
              fun _ => ⟨none, some "<p>p</p>", some ⟨some ⟨none⟩⟩, 0⟩⟩)))
        (fun _ => ⟨none, some "<p>again</p>", some ⟨some ⟨none⟩⟩, 1⟩)
        ⟨true, "example.org", "/a"⟩ 500).res.body = some "<p>again</p>" ∧
    (render ⟨none, none, none, "express"⟩
        (cacheAfter ⟨none, none, none, "express"⟩
          (render ⟨none, none, none, "express"⟩ microCache
            (fun _ => ⟨none, some "", some ⟨some ⟨none⟩⟩, 1⟩)
            ⟨true, "example.org", "/e"⟩ 0).cache [])
        (fun _ => ⟨none, some "<p>again</p>", some ⟨some ⟨none⟩⟩, 1⟩)
        ⟨true, "example.org", "/e"⟩ 10).effects.filter Effect.isRender
      = [Effect.renderToString "/e"] ∧
    (render ⟨none, none, none, "express"⟩
        (cacheAfter ⟨none, none, none, "express"⟩
          (render ⟨none, none, none, "express"⟩ microCache
            (fun _ => ⟨none, some "", some ⟨some ⟨none⟩⟩, 1⟩)
            ⟨true, "example.org", "/e"⟩ 0).cache [])
        (fun _ => ⟨none, some "<p>again</p>", some ⟨some ⟨none⟩⟩, 1⟩)
        ⟨true, "example.org", "/e"⟩ 10).res.body = some "<p>again</p>" := by
  decide

/-- C2, amended: with the micro-cache enabled (capacity 100, time to live 1000 ms),
for every URL `u` and every non-empty HTML value: if a request for `u` missed the
cache and was rendered to that value, its callback running to its end (the renderer
left a `state.context` object and the status expression is a status code in
100..999) at time `t0 + elapsed`, then after every run of further requests that
are for fewer than 100 distinct URLs other than `u`, the requests for `u` among
them arriving no later than 1000 ms after that completion, a request for `u`
arriving no later than 1000 ms after that completion is answered with exactly that
HTML value, status 200, and the renderer is not invoked. -/
theorem render_repeat_within_ttl (env : Env) (c0 : LRU) (renderer renderer2 : Renderer)
    (req req2 : Request) (t0 t : Nat) (jobs : List Job) (html : String)
    (m : ContextModule)
    (hflag : useMicroCache env = true)
    (hmax : c0.max = 100) (hage : c0.maxAge = 1000)
    (hmiss : truthy (c0.get req.url t0).1 = false)
    (hstate : (renderer req.url).state.bind AppState.context = some m)
    (hvalid : validStatusCode (callbackStatus m.error) = true)
    (hhtml : (renderer req.url).html = some html) (hne : html ≠ "")
    (hdistinct : (((jobs.map (fun j => j.req.url)).filter
      (fun v => v != req.url)).dedup).length < 100)
    (hbetween : ∀ j ∈ jobs, j.req.url = req.url →
      j.now ≤ t0 + (renderer req.url).elapsed + 1000)
    (hurl : req2.url = req.url)
    (hwin : t ≤ t0 + (renderer req.url).elapsed + 1000) :
    (render env (cacheAfter env (render env c0 renderer req t0).cache jobs)
        renderer2 req2 t).res.body = some html ∧
    (render env (cacheAfter env (render env c0 renderer req t0).cache jobs)
        renderer2 req2 t).res.statusCode = some 200 ∧
    (render env (cacheAfter env (render env c0 renderer req t0).cache jobs)
        renderer2 req2 t).res.finished = true ∧
    (render env (cacheAfter env (render env c0 renderer req t0).cache jobs)
        renderer2 req2 t).effects.filter Effect.isRender = [] := by
  obtain ⟨gmax, gage⟩ := LRU.get_max c0 req.url t0
  have hset := LRU.set_own (c0.get req.url t0).2
    ((jobs.map (fun j => j.req.url)).filter (fun v => v != req.url)) req.url (some html)
    (t0 + (renderer req.url).elapsed) (by rw [gmax, hmax]; decide)
  rw [gage, hage] at hset
  rw [render_miss_cache env c0 renderer req t0 m hflag hmiss hstate hvalid, hhtml]
  have hheld := cacheAfter_held env
    ⟨req.url, some html, t0 + (renderer req.url).elapsed + 1000⟩ _ html hflag rfl hne
    jobs _ (by
      have hsm : ((c0.get req.url t0).2.set req.url (some html)
          (t0 + (renderer req.url).elapsed)).max = (c0.get req.url t0).2.max := rfl
      rw [hsm, gmax, hmax]
      exact hdistinct)
    hbetween
    (fun j hj hju => by
      apply List.mem_filter.mpr
      exact ⟨List.mem_map.mpr ⟨j, hj, rfl⟩, by simpa using hju⟩)
    hset
  obtain ⟨hget0, -⟩ := LRU.get_own _ _ _ t hheld hwin
  have hget : ((cacheAfter env ((c0.get req.url t0).2.set req.url (some html)
      (t0 + (renderer req.url).elapsed)) jobs).get req2.url t).1 = some html := by
    rw [hurl]
    exact hget0
  have ht : truthy
      ((cacheAfter env ((c0.get req.url t0).2.set req.url (some html)
        (t0 + (renderer req.url).elapsed)) jobs).get req2.url t).1 = true := by
    simp [hget, truthy, hne]
  rw [render_eq_hit env _ renderer2 req2 t hflag ht, hget]
  refine ⟨rfl, rfl, rfl, ?_⟩
  cases isProd env <;> simp [Effect.isRender]

/-- The amended C2 on a cold cache: `/a` rendered at time 0, then `/b`, `/a` and
`/b` again served in between, and `/a` asked again at time 900. -/
theorem render_repeat_within_ttl_witness :
    (render ⟨none, none, none, "express"⟩
        (cacheAfter ⟨none, none, none, "express"⟩
          (render ⟨none, none, none, "express"⟩ microCache
            (fun _ => ⟨none, some "<p>a</p>", some ⟨some ⟨none⟩⟩, 5⟩)
            ⟨true, "example.org", "/a"⟩ 0).cache
          [⟨⟨true, "example.org", "/b"⟩, 6,
              fun _ => ⟨none, some "<p>b</p>", some ⟨some ⟨none⟩⟩, 1⟩⟩,
            ⟨⟨true, "example.org", "/a"⟩, 8,
              fun _ => ⟨none, some "<p>other</p>", some ⟨some ⟨none⟩⟩, 1⟩⟩,
            ⟨⟨true, "example.org", "/b"⟩, 9,
              fun _ => ⟨none, some "<p>b</p>", some ⟨some ⟨none⟩⟩, 1⟩⟩])
        (fun _ => ⟨none, some "<p>again</p>", some ⟨some ⟨none⟩⟩, 1⟩)
        ⟨true, "example.org", "/a"⟩ 900).res.body = some "<p>a</p>" :=
  (render_repeat_within_ttl ⟨none, none, none, "express"⟩ microCache
    (fun _ => ⟨none, some "<p>a</p>", some ⟨some ⟨none⟩⟩, 5⟩)
    (fun _ => ⟨none, some "<p>again</p>", some ⟨some ⟨none⟩⟩, 1⟩)
    ⟨true, "example.org", "/a"⟩ ⟨true, "example.org", "/a"⟩ 0 900
    [⟨⟨true, "example.org", "/b"⟩, 6,
        fun _ => ⟨none, some "<p>b</p>", some ⟨some ⟨none⟩⟩, 1⟩⟩,
      ⟨⟨true, "example.org", "/a"⟩, 8,
        fun _ => ⟨none, some "<p>other</p>", some ⟨some ⟨none⟩⟩, 1⟩⟩,
      ⟨⟨true, "example.org", "/b"⟩, 9,
        fun _ => ⟨none, some "<p>b</p>", some ⟨some ⟨none⟩⟩, 1⟩⟩]
    "<p>a</p>" ⟨none⟩ (by decide) rfl rfl (by decide) rfl (by decide) rfl (by decide)
    (by decide) (by simp) rfl (by decide)).1

end VuexWorkshop
